import Mathlib

/-!
Shallow embedding of the frame-driven tooth-erosion simulation of this
repository (`ToothSimulation.__init__` / `ToothSimulation.update` in
`src/main.py`; `ToothAnimationGenerator` in `src/app.py` carries the same
logic line for line).  Floating-point values are modelled as real numbers;
the ambient random draws (initial particle scatter from
`np.random.uniform`, per-tick erosion jitter from `np.random.rand`) are
explicit parameters of the corresponding operations.
-/

namespace ApChemVis

/-- The x-sample grid `np.linspace(-2.5, 2.5, 200)`. -/
noncomputable def xTooth (i : Fin 200) : ℝ := -2.5 + 5 * (i.val : ℝ) / 199

/-- The initial enamel curve `1.5 - 0.5*np.cos(x_tooth*2) - 0.2*(x_tooth**2)`. -/
noncomputable def ySurfaceBase (i : Fin 200) : ℝ :=
  1.5 - 0.5 * Real.cos (xTooth i * 2) - 0.2 * (xTooth i) ^ 2

/-- The dentin curve `y_surface_base - 0.8`, computed once at initialization. -/
noncomputable def dentinSurface (i : Fin 200) : ℝ := ySurfaceBase i - 0.8

/-- One-dimensional linear interpolation over a list of sample points with
increasing abscissae, as `np.interp` computes it: queries at or left of the
first abscissa give the first ordinate, queries right of the last give the
last ordinate, and queries inside a segment are interpolated linearly. -/
noncomputable def interpPts (x : ℝ) : List (ℝ × ℝ) → ℝ
  | [] => 0
  | [p] => p.2
  | p :: q :: rest =>
    if x ≤ p.1 then p.2
    else if x ≤ q.1 then p.2 + (x - p.1) * (q.2 - p.2) / (q.1 - p.1)
    else interpPts x (q :: rest)

/-- The sample-point list `(x_tooth[i], fp[i])` for a profile `fp` on the grid. -/
noncomputable def gridPts (fp : Fin 200 → ℝ) : List (ℝ × ℝ) :=
  (List.finRange 200).map (fun i => (xTooth i, fp i))

/-- `np.interp(x, x_tooth, fp)` on the fixed tooth grid. -/
noncomputable def interp (fp : Fin 200 → ℝ) (x : ℝ) : ℝ := interpPts x (gridPts fp)

/-- The mutable per-instance state of `ToothSimulation`: the enamel profile
`current_enamel_y`, the dentin profile `dentin_surface`, the acid-particle
coordinate arrays `acid_x` / `acid_y`, the acid markers alpha and
visibility, and the coating band (`None` until the coating phase draws it,
then the upper boundary curve). -/
structure SimState where
  enamelY : Fin 200 → ℝ
  dentinY : Fin 200 → ℝ
  acidX : Fin 100 → ℝ
  acidY : Fin 100 → ℝ
  acidAlpha : ℝ
  acidVisible : Bool
  coating : Option (Fin 200 → ℝ)

/-- `ToothSimulation.__init__`, parametrized by the two uniform random draws
for the 100 acid particles (`np.random.uniform(-2.5, 2.5, 100)` and
`np.random.uniform(2.0, 3.5, 100)`).  The acid markers are created with
`alpha=0.6` and the coating polygon with `None`. -/
noncomputable def initState (ax ay : Fin 100 → ℝ) : SimState :=
  { enamelY := ySurfaceBase
    dentinY := dentinSurface
    acidX := ax
    acidY := ay
    acidAlpha := 0.6
    acidVisible := true
    coating := none }

/-- Phase 1 body (frames below 60): every particle falls by `drop_speed`
0.05; the mask of particles now below the interpolated enamel height at
their x is reset to that interpolated height plus 0.1. -/
noncomputable def attackStep (s : SimState) : SimState :=
  { s with
    acidY := fun j =>
      let y := s.acidY j - 0.05
      if y < interp s.enamelY (s.acidX j) then interp s.enamelY (s.acidX j) + 0.1
      else y }

/-- Phase 2 body (frames 60 to 119): every enamel sample loses
`0.005*sin(frame) + 0.002*rand()` and is then clamped from below by
`dentin_surface + 0.1`; on even frames the acid alpha is set to
`max(0, 0.6 - (frame - 60)/100)`. -/
noncomputable def erosionStep (frame : ℤ) (jitter : Fin 200 → ℝ) (s : SimState) :
    SimState :=
  { s with
    enamelY := fun i =>
      max (s.enamelY i - (0.005 * Real.sin (frame : ℝ) + 0.002 * jitter i))
        (s.dentinY i + 0.1)
    acidAlpha :=
      if frame % 2 = 0 then max 0 (0.6 - ((frame : ℝ) - 60) / 100)
      else s.acidAlpha }

/-- Phase 3 body (frames 120 and up): the acid markers are hidden, and the
coating band is redrawn from the current enamel up to
`min(enamel + (frame-120)*0.005, enamel + 0.3)` pointwise. -/
noncomputable def coatingStep (frame : ℤ) (s : SimState) : SimState :=
  { s with
    acidVisible := false
    coating := some (fun i =>
      min (s.enamelY i + ((frame : ℝ) - 120) * 0.005) (s.enamelY i + 0.3)) }

/-- The per-frame dispatcher `ToothSimulation.update`: a plain
`if frame < 60 / elif frame < 120 / else` chain with no range check. -/
noncomputable def update (frame : ℤ) (jitter : Fin 200 → ℝ) (s : SimState) :
    SimState :=
  if frame < 60 then attackStep s
  else if frame < 120 then erosionStep frame jitter s
  else coatingStep frame s

/-- The three phases the dispatcher can select. -/
inductive Phase
  | attack
  | erosion
  | coating
deriving DecidableEq

/-- Which branch of `ToothSimulation.update` a frame index takes. -/
def phaseOf (frame : ℤ) : Phase :=
  if frame < 60 then .attack else if frame < 120 then .erosion else .coating

/-- Sequential driving by `FuncAnimation(..., frames=200)`: `runTo jit s0 n`
is the state after advancing frames `0, 1, ..., n` in order, with `jit f`
the erosion jitter draw of frame `f`. -/
noncomputable def runTo (jit : ℕ → Fin 200 → ℝ) (s0 : SimState) : ℕ → SimState
  | 0 => update 0 (jit 0) s0
  | n + 1 => update ((n : ℤ) + 1) (jit (n + 1)) (runTo jit s0 n)

/-- An emitted mineral ion: a transient particle with a position. -/
structure Ion where
  x : ℝ
  y : ℝ

/-- Modelled from the spec: the code of this repository under `src/` is the
three-phase variant and contains no Resistance-Test phase and no Ion
Emission Model, so `tryEmit` is taken from the words of the Ion Emission
Model contract: for up to `maxPerTick` of the particle x-positions reported
as intersecting the coating boundary this tick, if the live ion count is
below `maxLive`, create one ion at (colliding-particle x plus a small
jitter, coating boundary height at that x plus a small offset). -/
noncomputable def tryEmit (colliding : List ℝ) (boundary : ℝ → ℝ)
    (jx jy : ℕ → ℝ) (maxPerTick maxLive : ℕ) (live : List Ion) : List Ion :=
  live ++
    ((colliding.take (min maxPerTick (maxLive - live.length))).enum.map
      (fun p => { x := p.2 + jx p.1, y := boundary p.2 + jy p.1 }))

/-- Modelled from the spec: the advance step of the Ion Emission Model — every
live ion moves up by `driftSpeed` plus an independent small horizontal
jitter, then any ion whose y exceeds the fixed ceiling is removed. -/
noncomputable def advanceIons (driftSpeed ceiling : ℝ) (jx : ℕ → ℝ)
    (ions : List Ion) : List Ion :=
  (ions.enum.map (fun p => { x := p.2.x + jx p.1, y := p.2.y + driftSpeed }))
    |>.filter (fun ion => decide (ion.y ≤ ceiling))

/-- Modelled from the spec: one Resistance-Test tick of the Ion Emission
Model, in the mandated order — collision detection is the input list,
then bounded emission, then drift and removal. -/
noncomputable def ionTick (colliding : List ℝ) (boundary : ℝ → ℝ)
    (jx jy : ℕ → ℝ) (maxPerTick maxLive : ℕ) (driftSpeed ceiling : ℝ)
    (dj : ℕ → ℝ) (live : List Ion) : List Ion :=
  advanceIons driftSpeed ceiling dj
    (tryEmit colliding boundary jx jy maxPerTick maxLive live)

/-! Branch selection of the dispatcher. -/

lemma update_of_lt60 {frame : ℤ} (h : frame < 60) (jitter : Fin 200 → ℝ)
    (s : SimState) : update frame jitter s = attackStep s := by
  simp [update, h]

lemma update_of_erosion {frame : ℤ} (h60 : 60 ≤ frame) (h120 : frame < 120)
    (jitter : Fin 200 → ℝ) (s : SimState) :
    update frame jitter s = erosionStep frame jitter s := by
  simp [update, h120, not_lt.mpr h60]

lemma update_of_ge120 {frame : ℤ} (h : 120 ≤ frame) (jitter : Fin 200 → ℝ)
    (s : SimState) : update frame jitter s = coatingStep frame s := by
  have h60 : ¬frame < 60 := by omega
  have h120 : ¬frame < 120 := by omega
  simp [update, h60, h120]

/-! Which state fields each phase body leaves unchanged. -/

lemma attackStep_enamelY (s : SimState) : (attackStep s).enamelY = s.enamelY := rfl

lemma attackStep_dentinY (s : SimState) : (attackStep s).dentinY = s.dentinY := rfl

lemma attackStep_acidX (s : SimState) : (attackStep s).acidX = s.acidX := rfl

lemma attackStep_acidAlpha (s : SimState) : (attackStep s).acidAlpha = s.acidAlpha := rfl

lemma attackStep_coating (s : SimState) : (attackStep s).coating = s.coating := rfl

lemma erosionStep_dentinY (frame : ℤ) (jitter : Fin 200 → ℝ) (s : SimState) :
    (erosionStep frame jitter s).dentinY = s.dentinY := rfl

lemma erosionStep_acidY (frame : ℤ) (jitter : Fin 200 → ℝ) (s : SimState) :
    (erosionStep frame jitter s).acidY = s.acidY := rfl

lemma coatingStep_enamelY (frame : ℤ) (s : SimState) :
    (coatingStep frame s).enamelY = s.enamelY := rfl

lemma coatingStep_dentinY (frame : ℤ) (s : SimState) :
    (coatingStep frame s).dentinY = s.dentinY := rfl

lemma coatingStep_acidAlpha (frame : ℤ) (s : SimState) :
    (coatingStep frame s).acidAlpha = s.acidAlpha := rfl

lemma update_dentinY (frame : ℤ) (jitter : Fin 200 → ℝ) (s : SimState) :
    (update frame jitter s).dentinY = s.dentinY := by
  unfold update
  split
  · rfl
  · split
    · rfl
    · rfl

lemma runTo_dentinY (jit : ℕ → Fin 200 → ℝ) (s0 : SimState) (n : ℕ) :
    (runTo jit s0 n).dentinY = s0.dentinY := by
  induction n with
  | zero => simp [runTo, update_dentinY]
  | succ m ih => rw [runTo, update_dentinY, ih]

/-! The enamel-above-dentin floor invariant. -/

/-- The geometry invariant of §3: the surface profile stays at least the
margin 0.1 above the substrate profile at every sample. -/
def AboveFloor (s : SimState) : Prop := ∀ i, s.dentinY i + 0.1 ≤ s.enamelY i

lemma initState_aboveFloor (ax ay : Fin 100 → ℝ) : AboveFloor (initState ax ay) := by
  intro i
  simp only [initState, dentinSurface]
  linarith

lemma update_aboveFloor {s : SimState} (frame : ℤ) (jitter : Fin 200 → ℝ)
    (hs : AboveFloor s) : AboveFloor (update frame jitter s) := by
  unfold update
  split
  · exact hs
  · split
    · intro i
      simp only [erosionStep]
      exact le_max_right _ _
    · exact hs

lemma runTo_aboveFloor (jit : ℕ → Fin 200 → ℝ) {s0 : SimState}
    (h0 : AboveFloor s0) (n : ℕ) : AboveFloor (runTo jit s0 n) := by
  induction n with
  | zero => exact update_aboveFloor 0 (jit 0) h0
  | succ m ih => exact update_aboveFloor _ _ ih

/-! Numeric bounds on sin 60 (the smooth erosion term at the first erosion
frame) obtained from the periodicity of sin and rational bounds on pi. -/

lemma sin_sixty_eq : Real.sin 60 = -Real.sin (60 - 19 * Real.pi) := by
  have h : (60 : ℝ) = 60 - 19 * Real.pi + Real.pi + ((9 : ℤ) : ℝ) * (2 * Real.pi) := by
    push_cast
    ring
  rw [h, Real.sin_add_int_mul_two_pi, Real.sin_add, Real.sin_pi, Real.cos_pi]
  ring_nf

lemma sixty_sub_pi_pos : 0 < 60 - 19 * Real.pi := by
  nlinarith [Real.pi_lt_d6]

lemma sixty_sub_pi_lt : 60 - 19 * Real.pi < 0.31 := by
  nlinarith [Real.pi_gt_d6]

lemma sin_sixty_neg : Real.sin 60 < 0 := by
  have hlt : 60 - 19 * Real.pi < Real.pi := by nlinarith [Real.pi_gt_d6]
  have hpos := Real.sin_pos_of_pos_of_lt_pi sixty_sub_pi_pos hlt
  rw [sin_sixty_eq]
  linarith

lemma sin_sixty_gt : -0.31 < Real.sin 60 := by
  have hlt := Real.sin_lt sixty_sub_pi_pos
  rw [sin_sixty_eq]
  linarith [sixty_sub_pi_lt]

/-! A uniform upper bound for the initial enamel curve, and the fact that
linear interpolation cannot exceed a bound satisfied by all samples. -/

lemma ySurfaceBase_le (i : Fin 200) : ySurfaceBase i ≤ 1.8 := by
  have hlow : 1 - (xTooth i * 2) ^ 2 / 2 ≤ Real.cos (xTooth i * 2) :=
    Real.one_sub_sq_div_two_le_cos
  have hneg : -1 ≤ Real.cos (xTooth i * 2) := Real.neg_one_le_cos _
  unfold ySurfaceBase
  rcases le_or_lt ((xTooth i) ^ 2) 1 with h | h
  · nlinarith
  · nlinarith

lemma interpPts_le {B x : ℝ} :
    ∀ {pts : List (ℝ × ℝ)}, pts ≠ [] →
      pts.Chain' (fun p q => p.1 < q.1) →
      (∀ p ∈ pts, p.2 ≤ B) → interpPts x pts ≤ B := by
  intro pts
  induction pts with
  | nil => intro h; exact absurd rfl h
  | cons p rest ih =>
    intro _ hc hB
    cases rest with
    | nil => simpa [interpPts] using hB p (by simp)
    | cons q rest2 =>
      have hpq : p.1 < q.1 := (List.chain'_cons.mp hc).1
      have hc2 : (q :: rest2).Chain' (fun p q : ℝ × ℝ => p.1 < q.1) :=
        (List.chain'_cons.mp hc).2
      by_cases h1 : x ≤ p.1
      · simpa [interpPts, h1] using hB p (by simp)
      · by_cases h2 : x ≤ q.1
        · have hp : p.2 ≤ B := hB p (by simp)
          have hq : q.2 ≤ B := hB q (by simp)
          have hd : (0 : ℝ) < q.1 - p.1 := by linarith
          have hx : p.1 < x := lt_of_not_le h1
          simp only [interpPts, if_neg h1, if_pos h2]
          rw [add_comm, ← le_sub_iff_add_le, div_le_iff₀ hd]
          nlinarith [mul_nonneg (by linarith : (0:ℝ) ≤ B - p.2)
              (by linarith : (0:ℝ) ≤ q.1 - x),
            mul_nonneg (by linarith : (0:ℝ) ≤ x - p.1)
              (by linarith : (0:ℝ) ≤ B - q.2)]
        · simp only [interpPts, if_neg h1, if_neg h2]
          exact ih (by simp) hc2 (fun r hr => hB r (by simp [hr]))

lemma gridPts_ne_nil (fp : Fin 200 → ℝ) : gridPts fp ≠ [] := by
  simp [gridPts]

lemma xTooth_lt {i j : Fin 200} (h : i < j) : xTooth i < xTooth j := by
  have hij : (i.val : ℝ) < (j.val : ℝ) := by exact_mod_cast h
  unfold xTooth
  linarith

lemma gridPts_chain (fp : Fin 200 → ℝ) :
    (gridPts fp).Chain' (fun p q => p.1 < q.1) := by
  unfold gridPts
  rw [List.chain'_map]
  apply List.chain'_iff_get.mpr
  intro k hk
  simp only [List.get_finRange]
  apply xTooth_lt
  simp only [List.length_finRange] at hk
  exact Fin.mk_lt_mk.mpr (by omega)

lemma gridPts_snd_le {fp : Fin 200 → ℝ} {B : ℝ} (hfp : ∀ i, fp i ≤ B) :
    ∀ p ∈ gridPts fp, p.2 ≤ B := by
  intro p hp
  simp only [gridPts, List.mem_map, List.mem_finRange, true_and] at hp
  obtain ⟨i, rfl⟩ := hp
  exact hfp i

lemma interp_le {fp : Fin 200 → ℝ} {B : ℝ} (hfp : ∀ i, fp i ≤ B) (x : ℝ) :
    interp fp x ≤ B :=
  interpPts_le (gridPts_ne_nil fp) (gridPts_chain fp) (gridPts_snd_le hfp)

lemma interp_ySurfaceBase_le (x : ℝ) : interp ySurfaceBase x ≤ 1.8 :=
  interp_le ySurfaceBase_le x

/-! Runs that stay inside the attack phase only move the acid particles. -/

lemma runTo_lt60 (jit : ℕ → Fin 200 → ℝ) (s0 : SimState) {n : ℕ} (h : n < 60) :
    (runTo jit s0 n).enamelY = s0.enamelY ∧
    (runTo jit s0 n).acidAlpha = s0.acidAlpha ∧
    (runTo jit s0 n).coating = s0.coating ∧
    (runTo jit s0 n).acidX = s0.acidX := by
  induction n with
  | zero =>
    rw [runTo, update_of_lt60 (by norm_num)]
    exact ⟨rfl, rfl, rfl, rfl⟩
  | succ m ih =>
    obtain ⟨h1, h2, h3, h4⟩ := ih (by omega)
    rw [runTo, update_of_lt60 (by exact_mod_cast (by omega : (m : ℤ) + 1 < 60))]
    exact ⟨h1, h2, h3, h4⟩

lemma runTo_59_enamelY (jit : ℕ → Fin 200 → ℝ) (ax ay : Fin 100 → ℝ) :
    (runTo jit (initState ax ay) 59).enamelY = ySurfaceBase :=
  (runTo_lt60 jit (initState ax ay) (by norm_num)).1

/-- Frame 60 is the first erosion frame: the state after tick 60 applies one
erosion step to the untouched initial enamel. -/
lemma runTo_60_enamelY (jit : ℕ → Fin 200 → ℝ) (ax ay : Fin 100 → ℝ) (i : Fin 200) :
    (runTo jit (initState ax ay) 60).enamelY i =
      max (ySurfaceBase i - (0.005 * Real.sin 60 + 0.002 * jit 60 i))
        (dentinSurface i + 0.1) := by
  have h60 : ((59 : ℕ) : ℤ) + 1 = 60 := by norm_num
  have hstep : runTo jit (initState ax ay) 60 =
      erosionStep 60 (jit 60) (runTo jit (initState ax ay) 59) := by
    rw [runTo, h60, update_of_erosion (by norm_num) (by norm_num)]
  rw [hstep]
  simp only [erosionStep]
  rw [congrFun (runTo_59_enamelY jit ax ay) i,
    congrFun (runTo_dentinY jit (initState ax ay) 59) i]
  norm_num [initState]

/-! The acid alpha across a sequential run: 0.6 throughout the attack phase,
then refreshed only on even erosion frames. -/

lemma erosionStep_acidAlpha (frame : ℤ) (jitter : Fin 200 → ℝ) (s : SimState) :
    (erosionStep frame jitter s).acidAlpha =
      if frame % 2 = 0 then max 0 (0.6 - ((frame : ℝ) - 60) / 100)
      else s.acidAlpha := rfl

lemma runTo_59_acidAlpha (jit : ℕ → Fin 200 → ℝ) (ax ay : Fin 100 → ℝ) :
    (runTo jit (initState ax ay) 59).acidAlpha = 0.6 :=
  (runTo_lt60 jit (initState ax ay) (by norm_num)).2.1

lemma max_eq_self_of_small {f : ℕ} (h60 : 60 ≤ f) (h120 : f < 120) :
    max (0 : ℝ) (0.6 - ((f : ℝ) - 60) / 100) = 0.6 - ((f : ℝ) - 60) / 100 := by
  have hle : (f : ℝ) ≤ 119 := by exact_mod_cast Nat.le_of_lt_succ h120
  have h60r : (60 : ℝ) ≤ (f : ℝ) := by exact_mod_cast h60
  apply max_eq_right
  linarith

/-- Closed form of the acid alpha over a sequential run reaching an erosion
frame: the last even frame at or before the current one decides it. -/
lemma runTo_acidAlpha_closed (jit : ℕ → Fin 200 → ℝ) (ax ay : Fin 100 → ℝ) :
    ∀ f : ℕ, 60 ≤ f → f < 120 →
      (runTo jit (initState ax ay) f).acidAlpha =
        0.6 - ((2 * ((f - 60) / 2) : ℕ) : ℝ) / 100 := by
  intro f
  induction f with
  | zero => omega
  | succ m ih =>
    intro h60 h120
    rcases Nat.lt_or_ge m 60 with hm | hm
    · -- m + 1 = 60: the first erosion frame
      have hm60 : m = 59 := by omega
      subst hm60
      have hstep : runTo jit (initState ax ay) 60 =
          erosionStep 60 (jit 60) (runTo jit (initState ax ay) 59) := by
        rw [runTo, (by norm_num : ((59 : ℕ) : ℤ) + 1 = 60),
          update_of_erosion (by norm_num) (by norm_num)]
      rw [(by norm_num : (59 : ℕ) + 1 = 60), hstep, erosionStep_acidAlpha]
      norm_num
    · -- m ≥ 60: erosion continues from the previous erosion frame
      have ihm := ih hm (by omega)
      have hstep : runTo jit (initState ax ay) (m + 1) =
          erosionStep ((m : ℤ) + 1) (jit (m + 1)) (runTo jit (initState ax ay) m) := by
        rw [runTo, update_of_erosion (by omega) (by exact_mod_cast (by omega : (m : ℤ) + 1 < 120))]
      rw [hstep, erosionStep_acidAlpha]
      by_cases hpar : ((m : ℤ) + 1) % 2 = 0
      · rw [if_pos hpar]
        have hpar' : (m + 1) % 2 = 0 := by omega
        have hcast : (((m : ℤ) + 1 : ℤ) : ℝ) = ((m + 1 : ℕ) : ℝ) := by push_cast; ring
        rw [hcast, max_eq_self_of_small h60 h120]
        have harith : (2 * ((m + 1 - 60) / 2) : ℕ) = m + 1 - 60 := by omega
        rw [harith]
        have hsub : ((m + 1 - 60 : ℕ) : ℝ) = ((m + 1 : ℕ) : ℝ) - 60 := by
          rw [Nat.cast_sub h60]
          norm_num
        rw [hsub]
      · rw [if_neg hpar, ihm]
        have harith : (2 * ((m + 1 - 60) / 2) : ℕ) = (2 * ((m - 60) / 2) : ℕ) := by omega
        rw [harith]

/-! Claim theorems. -/

/-- C1: for every tick of the simulation and every sample index, the
surface profile y-value is at least the substrate profile y-value plus the
fixed margin 0.1 — before, during and after the erosion phase — and the
clamp of the erode step re-establishes this bound after each perturbation,
whatever state it starts from. -/
theorem c1_surface_above_substrate :
    (∀ (ax ay : Fin 100 → ℝ) (jit : ℕ → Fin 200 → ℝ) (n : ℕ) (i : Fin 200),
      dentinSurface i + 0.1 ≤ (runTo jit (initState ax ay) n).enamelY i) ∧
    (∀ (s : SimState) (frame : ℤ) (jitter : Fin 200 → ℝ) (i : Fin 200),
      60 ≤ frame → frame < 120 →
        s.dentinY i + 0.1 ≤ (update frame jitter s).enamelY i) := by
  constructor
  · intro ax ay jit n i
    have h := runTo_aboveFloor jit (initState_aboveFloor ax ay) n i
    rw [runTo_dentinY] at h
    exact h
  · intro s frame jitter i h60 h120
    rw [update_of_erosion h60 h120]
    exact le_max_right _ _

/-- Witness for C1: the clamp bound holds at the concrete first erosion
frame 60, sample 0, from a concrete fresh state. -/
theorem c1_surface_above_substrate_witness :
    (60 : ℤ) ≤ 60 ∧ (60 : ℤ) < 120 ∧
      (initState (fun _ => 0) (fun _ => 3)).dentinY 0 + 0.1 ≤
        (update 60 (fun _ => 0) (initState (fun _ => 0) (fun _ => 3))).enamelY 0 :=
  ⟨by norm_num, by norm_num,
    c1_surface_above_substrate.2 (initState (fun _ => 0) (fun _ => 3)) 60
      (fun _ => 0) 0 (by norm_num) (by norm_num)⟩

/-- C2: on every coating-phase frame the upper
boundary equals the current surface plus the effective thickness
min((frame − 120)·0.005, 0.3) at every sample, never exceeding
surface + 0.3; at frame 150 that thickness is 0.15. -/
theorem c2_coating_thickness (s : SimState) (jitter : Fin 200 → ℝ)
    (frame : ℤ) (h : 120 ≤ frame) :
    ∃ b : Fin 200 → ℝ, (update frame jitter s).coating = some b ∧
      (∀ i, b i = s.enamelY i + min (((frame : ℝ) - 120) * 0.005) 0.3) ∧
      (∀ i, b i ≤ s.enamelY i + 0.3) ∧
      min ((((150 : ℤ) : ℝ) - 120) * 0.005) 0.3 = 0.15 := by
  rw [update_of_ge120 h]
  refine ⟨_, rfl, ?_, ?_, by norm_num⟩
  · intro i
    show min (s.enamelY i + ((frame : ℝ) - 120) * 0.005) (s.enamelY i + 0.3) = _
    rw [min_def, min_def]
    split_ifs with h1 h2 h2
    · rfl
    · linarith
    · linarith
    · rfl
  · intro i
    exact min_le_right _ _

/-- Witness for C2 at the concrete frame 150 inside the coating phase. -/
theorem c2_coating_thickness_witness :
    (120 : ℤ) ≤ 150 ∧
      ∃ b : Fin 200 → ℝ,
        (update 150 (fun _ => 0) (initState (fun _ => 0) (fun _ => 3))).coating =
          some b ∧
        (∀ i, b i = (initState (fun _ => 0) (fun _ => 3)).enamelY i +
          min ((((150 : ℤ) : ℝ) - 120) * 0.005) 0.3) ∧
        (∀ i, b i ≤ (initState (fun _ => 0) (fun _ => 3)).enamelY i + 0.3) ∧
        min ((((150 : ℤ) : ℝ) - 120) * 0.005) 0.3 = 0.15 :=
  ⟨by norm_num,
    c2_coating_thickness (initState (fun _ => 0) (fun _ => 3)) (fun _ => 0) 150
      (by norm_num)⟩

/-- C3: the live emitted-ion count never exceeds maxLive; at most
maxPerTick ions are created in a single tick however many colliding
particle positions are reported; at the cap no new ion is created even when
new collisions occur; and a full emit-then-drift tick preserves the cap. -/
theorem c3_ion_caps (colliding : List ℝ) (boundary : ℝ → ℝ)
    (jx jy dj : ℕ → ℝ) (maxPerTick maxLive : ℕ) (driftSpeed ceiling : ℝ)
    (live : List Ion) (hlive : live.length ≤ maxLive) :
    (tryEmit colliding boundary jx jy maxPerTick maxLive live).length ≤ maxLive ∧
    (tryEmit colliding boundary jx jy maxPerTick maxLive live).length -
      live.length ≤ maxPerTick ∧
    (live.length = maxLive →
      tryEmit colliding boundary jx jy maxPerTick maxLive live = live) ∧
    (ionTick colliding boundary jx jy maxPerTick maxLive driftSpeed ceiling dj
      live).length ≤ maxLive := by
  have hlen : (tryEmit colliding boundary jx jy maxPerTick maxLive live).length =
      live.length + min (min maxPerTick (maxLive - live.length)) colliding.length := by
    simp [tryEmit]
  refine ⟨by omega, by omega, ?_, ?_⟩
  · intro hcap
    have h0 : min maxPerTick (maxLive - live.length) = 0 := by omega
    simp [tryEmit, h0]
  · calc (ionTick colliding boundary jx jy maxPerTick maxLive driftSpeed ceiling
          dj live).length
        ≤ ((tryEmit colliding boundary jx jy maxPerTick maxLive live).enum.map
            (fun p => ({ x := p.2.x + dj p.1, y := p.2.y + driftSpeed } : Ion))).length :=
          List.length_filter_le _ _
      _ ≤ maxLive := by
          rw [List.length_map, List.enum_length]
          omega

/-- Witness for C3: a scenario-sized instance from the spec — 80 collisions per
tick, maxPerTick 3, maxLive 50, starting from an empty live population. -/
theorem c3_ion_caps_witness :
    (([] : List Ion).length ≤ 50) ∧
    ((tryEmit (List.replicate 80 0) (fun _ => 0) (fun _ => 0) (fun _ => 0) 3 50
      []).length ≤ 50 ∧
    (tryEmit (List.replicate 80 0) (fun _ => 0) (fun _ => 0) (fun _ => 0) 3 50
      []).length - ([] : List Ion).length ≤ 3 ∧
    (([] : List Ion).length = 50 →
      tryEmit (List.replicate 80 0) (fun _ => 0) (fun _ => 0) (fun _ => 0) 3 50
        [] = []) ∧
    (ionTick (List.replicate 80 0) (fun _ => 0) (fun _ => 0) (fun _ => 0) 3 50
      0.02 3.5 (fun _ => 0) []).length ≤ 50) :=
  ⟨by simp,
    c3_ion_caps (List.replicate 80 0) (fun _ => 0) (fun _ => 0) (fun _ => 0)
      (fun _ => 0) 3 50 0.02 3.5 [] (by simp)⟩

/-- C9: the substrate (dentin) profile is computed once at initialization
as the initial surface minus the fixed offset 0.8, and no per-frame
dispatch in any phase modifies it: it is unchanged by every single update
and across every sequential run. -/
theorem c9_substrate_immutable :
    (∀ i, dentinSurface i = ySurfaceBase i - 0.8) ∧
    (∀ (frame : ℤ) (jitter : Fin 200 → ℝ) (s : SimState),
      (update frame jitter s).dentinY = s.dentinY) ∧
    (∀ (ax ay : Fin 100 → ℝ) (jit : ℕ → Fin 200 → ℝ) (n : ℕ),
      (runTo jit (initState ax ay) n).dentinY = dentinSurface) :=
  ⟨fun _ => rfl, update_dentinY,
    fun ax ay jit n => runTo_dentinY jit (initState ax ay) n⟩

/-- C10: after every attack-phase dispatch, the y of every acid particle is at
or above the surface height interpolated at its x (a particle pushed below
is reset 0.1 above the surface, the others keep only the fall decrement),
while the surface and the particle x-positions are untouched. -/
theorem c10_particles_above_surface (frame : ℤ) (jitter : Fin 200 → ℝ)
    (s : SimState) (h : frame < 60) :
    (∀ j, interp s.enamelY (s.acidX j) ≤ (update frame jitter s).acidY j) ∧
    (update frame jitter s).enamelY = s.enamelY ∧
    (update frame jitter s).acidX = s.acidX := by
  rw [update_of_lt60 h]
  refine ⟨?_, rfl, rfl⟩
  intro j
  show interp s.enamelY (s.acidX j) ≤
    (if s.acidY j - 0.05 < interp s.enamelY (s.acidX j) then
      interp s.enamelY (s.acidX j) + 0.1
    else s.acidY j - 0.05)
  by_cases hm : s.acidY j - 0.05 < interp s.enamelY (s.acidX j)
  · rw [if_pos hm]
    linarith
  · rw [if_neg hm]
    linarith [not_lt.mp hm]

/-- Witness for C10 at the concrete frame 0 and a concrete fresh state. -/
theorem c10_particles_above_surface_witness :
    (0 : ℤ) < 60 ∧
      (∀ j, interp (initState (fun _ => 0) (fun _ => 3)).enamelY
          ((initState (fun _ => 0) (fun _ => 3)).acidX j) ≤
        (update 0 (fun _ => 0) (initState (fun _ => 0) (fun _ => 3))).acidY j) ∧
      (update 0 (fun _ => 0) (initState (fun _ => 0) (fun _ => 3))).enamelY =
        (initState (fun _ => 0) (fun _ => 3)).enamelY ∧
      (update 0 (fun _ => 0) (initState (fun _ => 0) (fun _ => 3))).acidX =
        (initState (fun _ => 0) (fun _ => 3)).acidX :=
  ⟨by norm_num,
    c10_particles_above_surface 0 (fun _ => 0)
      (initState (fun _ => 0) (fun _ => 3)) (by norm_num)⟩

/-- A concrete state whose single-position particles rest exactly at the
clamp position, interpolated surface height plus 0.1. -/
noncomputable def restingState : SimState :=
  { enamelY := ySurfaceBase
    dentinY := dentinSurface
    acidX := fun _ => 0
    acidY := fun _ => interp ySurfaceBase 0 + 0.1
    acidAlpha := 0.6
    acidVisible := true
    coating := none }

/-- A concrete state whose particles sit well below the surface, so the
next attack step clamps them. -/
noncomputable def fallingState : SimState :=
  { enamelY := ySurfaceBase
    dentinY := dentinSurface
    acidX := fun _ => 0
    acidY := fun _ => interp ySurfaceBase 0 - 1
    acidAlpha := 0.6
    acidVisible := true
    coating := none }

/-- C4 counterexample: a particle resting exactly at the clamp position
(interpolated surface height + 0.1) does not stay there under a repeated
step with the surface unchanged — the next attack step leaves it at
interpolated surface height + 0.05, so the claimed idempotence fails. -/
theorem c4_counterexample :
    restingState.acidY 0 =
      interp restingState.enamelY (restingState.acidX 0) + 0.1 ∧
    (attackStep restingState).acidY 0 ≠
      interp restingState.enamelY (restingState.acidX 0) + 0.1 := by
  constructor
  · rfl
  · have hmask : ¬(interp ySurfaceBase 0 + 0.1 - 0.05 < interp ySurfaceBase 0) := by
      linarith
    show (if interp ySurfaceBase 0 + 0.1 - 0.05 < interp ySurfaceBase 0 then
        interp ySurfaceBase 0 + 0.1
      else interp ySurfaceBase 0 + 0.1 - 0.05) ≠ interp ySurfaceBase 0 + 0.1
    rw [if_neg hmask]
    intro heq
    linarith [heq]

/-- C4 amended: a particle whose fall takes it strictly below the
interpolated surface height is clamped to rest exactly at that height plus
the clearance 0.1 at the end of that step; the rest position is not
preserved by further steps while the surface is unchanged — the next
attack step applies the fall decrement and, the particle being still above
the surface, leaves it at interpolated surface height + 0.05; a particle is
re-clamped only after it next falls strictly below the surface. -/
theorem c4_clamp_position :
    (∀ (s : SimState) (j : Fin 100),
      s.acidY j - 0.05 < interp s.enamelY (s.acidX j) →
        (attackStep s).acidY j = interp s.enamelY (s.acidX j) + 0.1) ∧
    (∀ (s : SimState) (j : Fin 100),
      s.acidY j = interp s.enamelY (s.acidX j) + 0.1 →
        (attackStep s).acidY j = interp s.enamelY (s.acidX j) + 0.05) := by
  constructor
  · intro s j hmask
    show (if s.acidY j - 0.05 < interp s.enamelY (s.acidX j) then
        interp s.enamelY (s.acidX j) + 0.1
      else s.acidY j - 0.05) = interp s.enamelY (s.acidX j) + 0.1
    rw [if_pos hmask]
  · intro s j hrest
    have hmask : ¬(s.acidY j - 0.05 < interp s.enamelY (s.acidX j)) := by
      rw [hrest]
      intro hcon
      linarith
    show (if s.acidY j - 0.05 < interp s.enamelY (s.acidX j) then
        interp s.enamelY (s.acidX j) + 0.1
      else s.acidY j - 0.05) = interp s.enamelY (s.acidX j) + 0.05
    rw [if_neg hmask, hrest]
    ring

/-- Witness for C4 at the two concrete states: one particle below the
surface gets clamped to +0.1, one resting at +0.1 falls to +0.05. -/
theorem c4_clamp_position_witness :
    (fallingState.acidY 0 - 0.05 <
        interp fallingState.enamelY (fallingState.acidX 0)) ∧
    (attackStep fallingState).acidY 0 =
      interp fallingState.enamelY (fallingState.acidX 0) + 0.1 ∧
    (attackStep restingState).acidY 0 =
      interp restingState.enamelY (restingState.acidX 0) + 0.05 := by
  have h1 : fallingState.acidY 0 - 0.05 <
      interp fallingState.enamelY (fallingState.acidX 0) := by
    show interp ySurfaceBase 0 - 1 - 0.05 < interp ySurfaceBase ((fun _ : Fin 100 => (0 : ℝ)) 0)
    simp only
    linarith
  exact ⟨h1, c4_clamp_position.1 fallingState 0 h1,
    c4_clamp_position.2 restingState 0 rfl⟩

/-- C5 counterexample: advancing ticks 0..59 and then tick 60 with zero
jitter draws makes surface sample 0 strictly rise above its tick-59 value
(the smooth term 0.005·sin 60 is negative), and the risen sample is not at
the clamp floor either — so the first erosion step does not only lower
samples or hold them at the floor. -/
theorem c5_counterexample :
    (runTo (fun _ _ => 0) (initState (fun _ => 0) (fun _ => 3)) 59).enamelY 0 <
      (runTo (fun _ _ => 0) (initState (fun _ => 0) (fun _ => 3)) 60).enamelY 0 ∧
    (runTo (fun _ _ => 0) (initState (fun _ => 0) (fun _ => 3)) 60).enamelY 0 ≠
      dentinSurface 0 + 0.1 := by
  have h59 := congrFun
    (runTo_59_enamelY (fun _ _ => 0) (fun _ => 0) (fun _ => 3)) 0
  have h60 := runTo_60_enamelY (fun _ _ => 0) (fun _ => 0) (fun _ => 3) 0
  have hfloor : dentinSurface 0 + 0.1 ≤
      ySurfaceBase 0 - (0.005 * Real.sin 60 + 0.002 * 0) := by
    have hs : Real.sin 60 ≤ 1 := Real.sin_le_one 60
    simp only [dentinSurface]
    nlinarith
  have hmax : (runTo (fun _ _ => 0) (initState (fun _ => 0) (fun _ => 3))
      60).enamelY 0 = ySurfaceBase 0 - (0.005 * Real.sin 60 + 0.002 * 0) := by
    rw [h60]
    exact max_eq_left hfloor
  refine ⟨?_, ?_⟩
  · rw [h59, hmax]
    have hneg := sin_sixty_neg
    nlinarith
  · rw [hmax]
    simp only [dentinSurface]
    have hneg := sin_sixty_neg
    intro heq
    nlinarith

/-- C5 amended: after ticks 0..59 (attack) and then tick 60 (the first
erosion tick), every surface sample equals its tick-59 value minus the
perturbation 0.005·sin 60 + 0.002·jitter, clamped from below at
substrate + 0.1; every sample therefore remains at least substrate + 0.1,
and a sample has decreased or stayed at the floor whenever its perturbation
is nonnegative — but sin 60 is negative, so small jitter draws make the
perturbation negative and such samples rise instead. -/
theorem c5_first_erosion_tick (ax ay : Fin 100 → ℝ)
    (jit : ℕ → Fin 200 → ℝ) (i : Fin 200) :
    (runTo jit (initState ax ay) 60).enamelY i =
      max ((runTo jit (initState ax ay) 59).enamelY i -
        (0.005 * Real.sin 60 + 0.002 * jit 60 i)) (dentinSurface i + 0.1) ∧
    dentinSurface i + 0.1 ≤ (runTo jit (initState ax ay) 60).enamelY i ∧
    (0 ≤ 0.005 * Real.sin 60 + 0.002 * jit 60 i →
      (runTo jit (initState ax ay) 60).enamelY i ≤
        (runTo jit (initState ax ay) 59).enamelY i) := by
  have h59 := congrFun (runTo_59_enamelY jit ax ay) i
  have h60 := runTo_60_enamelY jit ax ay i
  refine ⟨by rw [h60, h59], by rw [h60]; exact le_max_right _ _, ?_⟩
  intro hpos
  rw [h60, h59]
  apply max_le
  · linarith
  · simp only [dentinSurface]
    linarith

/-- Witness for C5: with the jitter draw 1 at every sample the
perturbation at frame 60 is nonnegative (sin 60 is above -0.31), so sample
0 indeed does not rise. -/
theorem c5_first_erosion_tick_witness :
    (0 ≤ 0.005 * Real.sin 60 + 0.002 * (1 : ℝ)) ∧
      (runTo (fun _ _ => 1) (initState (fun _ => 0) (fun _ => 3)) 60).enamelY 0 ≤
        (runTo (fun _ _ => 1) (initState (fun _ => 0) (fun _ => 3)) 59).enamelY 0 := by
  have hpos : (0 : ℝ) ≤ 0.005 * Real.sin 60 + 0.002 * 1 := by
    have := sin_sixty_gt
    nlinarith
  exact ⟨hpos,
    (c5_first_erosion_tick (fun _ => 0) (fun _ => 3) (fun _ _ => 1) 0).2.2 hpos⟩

/-- C6 counterexample: calling the per-frame dispatcher at the
out-of-range frames -1 and 200 is silently accepted, not signalled as a
failure: the dispatcher is a total if/elif/else chain, frame -1 runs an
ordinary attack step and frame 200 an ordinary coating step. -/
theorem c6_counterexample :
    update (-1) (fun _ => 0) (initState (fun _ => 0) (fun _ => 3)) =
      attackStep (initState (fun _ => 0) (fun _ => 3)) ∧
    phaseOf (-1) = Phase.attack ∧
    update 200 (fun _ => 0) (initState (fun _ => 0) (fun _ => 3)) =
      coatingStep 200 (initState (fun _ => 0) (fun _ => 3)) ∧
    phaseOf 200 = Phase.coating :=
  ⟨update_of_lt60 (by norm_num) _ _, rfl,
    update_of_ge120 (by norm_num) _ _, rfl⟩

/-- C6 amended: the dispatcher performs no range check at all: every
negative frame index silently takes the attack branch and every frame at
or beyond the final frame count 200 silently takes the coating branch;
out-of-range frames are accepted (and thereby clamped into a phase), never
signalled as argument failures — only the driver restricts frames
to 0..199. -/
theorem c6_no_range_check :
    (∀ (frame : ℤ) (jitter : Fin 200 → ℝ) (s : SimState), frame < 0 →
      update frame jitter s = attackStep s ∧ phaseOf frame = Phase.attack) ∧
    (∀ (frame : ℤ) (jitter : Fin 200 → ℝ) (s : SimState), 200 ≤ frame →
      update frame jitter s = coatingStep frame s ∧
        phaseOf frame = Phase.coating) := by
  constructor
  · intro frame jitter s h
    refine ⟨update_of_lt60 (by omega) jitter s, ?_⟩
    simp [phaseOf, show frame < 60 by omega]
  · intro frame jitter s h
    refine ⟨update_of_ge120 (by omega) jitter s, ?_⟩
    simp [phaseOf, show ¬frame < 60 by omega, show ¬frame < 120 by omega]

/-- Witness for C6 at the concrete out-of-range frames -5 and 250. -/
theorem c6_no_range_check_witness :
    ((-5 : ℤ) < 0 ∧
      update (-5) (fun _ => 0) (initState (fun _ => 0) (fun _ => 3)) =
        attackStep (initState (fun _ => 0) (fun _ => 3)) ∧
      phaseOf (-5) = Phase.attack) ∧
    ((200 : ℤ) ≤ 250 ∧
      update 250 (fun _ => 0) (initState (fun _ => 0) (fun _ => 3)) =
        coatingStep 250 (initState (fun _ => 0) (fun _ => 3)) ∧
      phaseOf 250 = Phase.coating) :=
  ⟨⟨by norm_num,
      c6_no_range_check.1 (-5) (fun _ => 0) (initState (fun _ => 0) (fun _ => 3))
        (by norm_num)⟩,
    ⟨by norm_num,
      c6_no_range_check.2 250 (fun _ => 0) (initState (fun _ => 0) (fun _ => 3))
        (by norm_num)⟩⟩

/-- C7 counterexample: a legal initial draw puts a particle at y = 2.0
(the closed lower end of the spawn interval [2.0, 3.5)); after advancing
frame 0 that particle sits at 1.95, outside the claimed interval
[2.0, 3.5) — the first attack step has already moved the particles. -/
theorem c7_counterexample :
    ((2 : ℝ) ≤ 2 ∧ (2 : ℝ) < 3.5) ∧
    (update 0 (fun _ => 0) (initState (fun _ => 0) (fun _ => 2))).acidY 0 =
      1.95 ∧
    ¬(2 ≤ (update 0 (fun _ => 0) (initState (fun _ => 0) (fun _ => 2))).acidY 0) := by
  have hstep : update 0 (fun _ => 0) (initState (fun _ => 0) (fun _ => 2)) =
      attackStep (initState (fun _ => 0) (fun _ => 2)) :=
    update_of_lt60 (by norm_num) _ _
  have hmask : ¬((2 : ℝ) - 0.05 < interp ySurfaceBase 0) := by
    have := interp_ySurfaceBase_le 0
    linarith
  have hval : (attackStep (initState (fun _ => 0) (fun _ => 2))).acidY 0 = 1.95 := by
    show (if (2 : ℝ) - 0.05 < interp ySurfaceBase 0 then interp ySurfaceBase 0 + 0.1
      else (2 : ℝ) - 0.05) = 1.95
    rw [if_neg hmask]
    norm_num
  rw [hstep, hval]
  norm_num

/-- C7 amended: after initialization with the 200-sample grid and default
constants, advancing frame 0 takes the attack branch, the coating is still
absent, all 100 acid particles are present, and — since the whole initial
surface lies at or below 1.8 while the draws start at or above 2.0 — no
particle is clamped on the first step, so every particle y is exactly its
initial draw minus the fall speed 0.05 and lies in [1.95, 3.45). -/
theorem c7_first_frame (ax ay : Fin 100 → ℝ) (jitter : Fin 200 → ℝ)
    (hay : ∀ j, 2 ≤ ay j ∧ ay j < 3.5) :
    phaseOf 0 = Phase.attack ∧
    (update 0 jitter (initState ax ay)).coating = none ∧
    (∀ j, (update 0 jitter (initState ax ay)).acidY j = ay j - 0.05) ∧
    (∀ j, 1.95 ≤ (update 0 jitter (initState ax ay)).acidY j ∧
      (update 0 jitter (initState ax ay)).acidY j < 3.45) := by
  have hstep : update 0 jitter (initState ax ay) =
      attackStep (initState ax ay) := update_of_lt60 (by norm_num) _ _
  have hval : ∀ j, (attackStep (initState ax ay)).acidY j = ay j - 0.05 := by
    intro j
    have hmask : ¬(ay j - 0.05 < interp ySurfaceBase (ax j)) := by
      have hb := interp_ySurfaceBase_le (ax j)
      have h2 := (hay j).1
      linarith
    show (if ay j - 0.05 < interp ySurfaceBase (ax j) then
        interp ySurfaceBase (ax j) + 0.1
      else ay j - 0.05) = ay j - 0.05
    rw [if_neg hmask]
  refine ⟨rfl, by rw [hstep]; rfl, by rw [hstep]; exact hval, ?_⟩
  intro j
  rw [hstep, hval j]
  have h1 := (hay j).1
  have h2 := (hay j).2
  constructor
  · linarith
  · linarith

/-- Witness for C7 at a concrete legal draw: every particle starts at
x = 0, y = 3. -/
theorem c7_first_frame_witness :
    (∀ j : Fin 100, 2 ≤ ((fun _ : Fin 100 => (3 : ℝ)) j) ∧
      ((fun _ : Fin 100 => (3 : ℝ)) j) < 3.5) ∧
    (phaseOf 0 = Phase.attack ∧
      (update 0 (fun _ => 0)
        (initState (fun _ => 0) (fun _ => 3))).coating = none ∧
      (∀ j, (update 0 (fun _ => 0)
        (initState (fun _ => 0) (fun _ => 3))).acidY j =
          (fun _ : Fin 100 => (3 : ℝ)) j - 0.05) ∧
      (∀ j, 1.95 ≤ (update 0 (fun _ => 0)
          (initState (fun _ => 0) (fun _ => 3))).acidY j ∧
        (update 0 (fun _ => 0)
          (initState (fun _ => 0) (fun _ => 3))).acidY j < 3.45)) := by
  have hay : ∀ j : Fin 100, 2 ≤ ((fun _ : Fin 100 => (3 : ℝ)) j) ∧
      ((fun _ : Fin 100 => (3 : ℝ)) j) < 3.5 := by
    intro j
    norm_num
  exact ⟨hay, c7_first_frame (fun _ => 0) (fun _ => 3) (fun _ => 0) hay⟩

/-- C8 counterexample: after sequentially advancing through the erosion
phase to the odd frame 61, the recorded acid alpha is still 0.6 (written
at frame 60) rather than the claimed max(0, 0.6 - (61-60)/100) = 0.59:
the code only rewrites the alpha on even frames. -/
theorem c8_counterexample :
    (runTo (fun _ _ => 0) (initState (fun _ => 0) (fun _ => 3)) 61).acidAlpha =
      0.6 ∧
    (runTo (fun _ _ => 0) (initState (fun _ => 0) (fun _ => 3)) 61).acidAlpha ≠
      max 0 (0.6 - (((61 : ℕ) : ℝ) - 60) / 100) := by
  have h := runTo_acidAlpha_closed (fun _ _ => 0) (fun _ => 0) (fun _ => 3) 61
    (by norm_num) (by norm_num)
  have hv : (runTo (fun _ _ => 0) (initState (fun _ => 0) (fun _ => 3))
      61).acidAlpha = 0.6 := by
    rw [h]
    norm_num
  refine ⟨hv, ?_⟩
  rw [hv]
  have hmax : max (0 : ℝ) (0.6 - (((61 : ℕ) : ℝ) - 60) / 100) = 0.59 := by
    rw [max_eq_right]
    · norm_num
    · norm_num
  rw [hmax]
  norm_num

/-- C8 amended: the acid alpha during the erosion phase is rewritten only
on even frames: after sequentially advancing to frame f in [60, 120) the
recorded alpha is 0.6 - (e - 60)/100 where e = 60 + 2*((f-60)/2) is the
largest even frame at or below f; on even f this agrees with the claimed
max(0, 0.6 - (f-60)/100) (whose floor never binds in this range), while on
odd f the alpha still carries the value of frame f-1. -/
theorem c8_alpha_fade (ax ay : Fin 100 → ℝ) (jit : ℕ → Fin 200 → ℝ)
    (f : ℕ) (h60 : 60 ≤ f) (h120 : f < 120) :
    (runTo jit (initState ax ay) f).acidAlpha =
      0.6 - ((2 * ((f - 60) / 2) : ℕ) : ℝ) / 100 ∧
    (f % 2 = 0 →
      (runTo jit (initState ax ay) f).acidAlpha =
        max 0 (0.6 - ((f : ℝ) - 60) / 100)) := by
  have h := runTo_acidAlpha_closed jit ax ay f h60 h120
  refine ⟨h, ?_⟩
  intro heven
  rw [h, max_eq_self_of_small h60 h120]
  have harith : (2 * ((f - 60) / 2) : ℕ) = f - 60 := by omega
  rw [harith, Nat.cast_sub h60]
  norm_num

/-- Witness for C8 at the concrete even erosion frame 62. -/
theorem c8_alpha_fade_witness :
    ((60 : ℕ) ≤ 62 ∧ (62 : ℕ) < 120) ∧
    ((runTo (fun _ _ => 0) (initState (fun _ => 0) (fun _ => 3)) 62).acidAlpha =
      0.6 - ((2 * (((62 : ℕ) - 60) / 2) : ℕ) : ℝ) / 100 ∧
    ((62 : ℕ) % 2 = 0 →
      (runTo (fun _ _ => 0) (initState (fun _ => 0) (fun _ => 3)) 62).acidAlpha =
        max 0 (0.6 - (((62 : ℕ) : ℝ) - 60) / 100))) :=
  ⟨⟨by norm_num, by norm_num⟩,
    c8_alpha_fade (fun _ => 0) (fun _ => 3) (fun _ _ => 0) 62
      (by norm_num) (by norm_num)⟩

end ApChemVis
